import Mathlib

/-
Verification development for the grpcweb package (grpcweb.go): a translator
between gRPC-Web framing and native gRPC framing.

Bytes are modelled as natural numbers; wherever the Go code performs 32-bit
unsigned arithmetic (binary.BigEndian.Uint32, the uint32 conversion in
StreamingResponseWriter.Write), the model reduces modulo 2^32 explicitly.
-/

/-- Frame-type flag for data frames (grpcweb.go, const grpcDataFrame = 0x00). -/
def grpcDataFrame : Nat := 0x00

/-- Frame-type flag for trailer frames (grpcweb.go, const grpcTrailerFrame = 0x80). -/
def grpcTrailerFrame : Nat := 0x80

/-- Reduction modulo 2^32, the effect of a Go uint32 conversion. -/
def u32 (n : Nat) : Nat := n % 4294967296

/-- binary.BigEndian.Uint32 over four bytes (each byte taken mod 256, as Go bytes
are 8-bit). -/
def be32 (a b c d : Nat) : Nat :=
  a % 256 * 16777216 + b % 256 * 65536 + c % 256 * 256 + d % 256

/-- binary.BigEndian.PutUint32: the four big-endian bytes of a 32-bit value. -/
def be32encode (n : Nat) : List Nat :=
  [n / 16777216 % 256, n / 65536 % 256, n / 256 % 256, n % 256]

/-- A gRPC-Web DATA frame as emitted by StreamingResponseWriter.Write
(grpcweb.go lines 152-162): flag 0x00, 4-byte big-endian length, payload. -/
def webDataFrame (len : Nat) (payload : List Nat) : List Nat :=
  grpcDataFrame :: be32encode len ++ payload

/-- A native gRPC frame for payload p: compression flag 0, 4-byte big-endian
length of p, then p (the input format consumed by StreamingResponseWriter.Write). -/
def nativeFrame (p : List Nat) : List Nat :=
  0 :: be32encode p.length ++ p

/-- Decoding a single complete gRPC-Web frame: 1-byte flag, 4-byte big-endian
length, and exactly that many payload bytes. -/
def decodeWebFrame (bytes : List Nat) : Option (Nat × List Nat) :=
  match bytes with
  | f :: a :: b :: c :: d :: rest =>
    if rest.length = be32 a b c d then some (f, rest) else none
  | _ => none

/-- The frame-draining loop of StreamingResponseWriter.Write (grpcweb.go lines
142-163).  Input: the accumulation buffer contents (frameBuffer after the
incoming bytes were appended).  Output: some (remaining buffer, bytes emitted
to the body writer), or none when io.CopyN fails because the buffer holds
fewer bytes than the declared frame length (possible when the uint32 sum
5+length wraps around).  The comparison uint32(frameBuffer.Len()) < 5+length
is 32-bit unsigned arithmetic in Go, hence the u32 reductions. -/
def drainLoop (buf : List Nat) : Option (List Nat × List Nat) :=
  match buf with
  | f :: a :: b :: c :: d :: rest =>
    if u32 (5 + rest.length) < u32 (5 + be32 a b c d) then
      some (f :: a :: b :: c :: d :: rest, [])
    else if be32 a b c d ≤ rest.length then
      (drainLoop (rest.drop (be32 a b c d))).map
        (fun ro => (ro.1, webDataFrame (be32 a b c d) (rest.take (be32 a b c d)) ++ ro.2))
    else none
  | short => some (short, [])
termination_by buf.length
decreasing_by simp only [List.length_drop, List.length_cons]; omega

/-- One call of StreamingResponseWriter.Write: append p to the accumulation
buffer, then drain complete frames (grpcweb.go lines 135-166). -/
def srwWrite (buf p : List Nat) : Option (List Nat × List Nat) :=
  drainLoop (buf ++ p)

/-- A sequence of Write calls, one per chunk, threading the accumulation buffer
and concatenating the emitted bytes; none as soon as one call fails. -/
def writeSeq (buf : List Nat) (chunks : List (List Nat)) : Option (List Nat × List Nat) :=
  match chunks with
  | [] => some (buf, [])
  | c :: cs =>
    match drainLoop (buf ++ c) with
    | some ro => (writeSeq ro.1 cs).map (fun ro2 => (ro2.1, ro.2 ++ ro2.2))
    | none => none

/-- Unfolding lemma for drainLoop on a buffer holding at least a 5-byte header. -/
theorem drainLoop_cons (f a b c d : Nat) (rest : List Nat) :
    drainLoop (f :: a :: b :: c :: d :: rest) =
      if u32 (5 + rest.length) < u32 (5 + be32 a b c d) then
        some (f :: a :: b :: c :: d :: rest, [])
      else if be32 a b c d ≤ rest.length then
        (drainLoop (rest.drop (be32 a b c d))).map
          (fun ro => (ro.1, webDataFrame (be32 a b c d) (rest.take (be32 a b c d)) ++ ro.2))
      else none := by
  rw [drainLoop.eq_def]

/-- Unfolding lemma for drainLoop on a buffer shorter than a frame header. -/
theorem drainLoop_short (buf : List Nat) (h : buf.length < 5) :
    drainLoop buf = some (buf, []) := by
  rcases buf with _ | ⟨x1, _ | ⟨x2, _ | ⟨x3, _ | ⟨x4, _ | ⟨x5, tl⟩⟩⟩⟩⟩
  · rw [drainLoop.eq_def]
  · rw [drainLoop.eq_def]
  · rw [drainLoop.eq_def]
  · rw [drainLoop.eq_def]
  · rw [drainLoop.eq_def]
  · simp only [List.length_cons] at h; omega

/-- be32 inverts be32encode below 2^32. -/
theorem be32_be32encode (n : Nat) (h : n < 4294967296) :
    be32 (n / 16777216 % 256) (n / 65536 % 256) (n / 256 % 256) (n % 256) = n := by
  unfold be32; omega

/-- Draining a buffer holding exactly one complete native frame emits exactly
the corresponding web DATA frame and empties the buffer. -/
theorem drain_nativeFrame (p : List Nat) (h : p.length < 4294967296) :
    drainLoop (nativeFrame p) = some ([], webDataFrame p.length p) := by
  have hbe := be32_be32encode p.length h
  simp only [nativeFrame, be32encode, List.cons_append, List.nil_append]
  rw [drainLoop_cons, hbe]
  rw [if_neg (lt_irrefl _), if_pos (le_refl _), List.drop_length, List.take_length]
  rw [drainLoop_short [] (by simp)]
  simp

/-- Decoding the web DATA frame for payload p recovers flag 0x00 and p. -/
theorem decode_webDataFrame (p : List Nat) (h : p.length < 4294967296) :
    decodeWebFrame (webDataFrame p.length p) = some (grpcDataFrame, p) := by
  have hbe := be32_be32encode p.length h
  simp only [webDataFrame, be32encode, List.cons_append, List.nil_append, decodeWebFrame]
  rw [if_pos hbe.symm]

/-- C1: Round-trip framing: writing one complete native frame
[flag 0][4-byte big-endian length of p][p] to StreamingResponseWriter.Write
(empty accumulation buffer) emits exactly one web DATA frame with flag 0x00,
the same 4-byte big-endian length, and payload p, and decoding that web frame
yields p unchanged.  The hypothesis p.length < 2^32 is what makes the 4-byte
length of p exist. -/
theorem c1_roundtrip_framing (p : List Nat) (h : p.length < 4294967296) :
    srwWrite [] (nativeFrame p) = some ([], webDataFrame p.length p) ∧
    decodeWebFrame (webDataFrame p.length p) = some (grpcDataFrame, p) := by
  refine ⟨?_, decode_webDataFrame p h⟩
  show drainLoop ([] ++ nativeFrame p) = _
  rw [List.nil_append]
  exact drain_nativeFrame p h

/-- Witness for C1 at the concrete two-byte payload [42, 7]. -/
theorem c1_roundtrip_framing_witness :
    srwWrite [] (nativeFrame [42, 7]) = some ([], webDataFrame 2 [42, 7]) ∧
    decodeWebFrame (webDataFrame 2 [42, 7]) = some (grpcDataFrame, [42, 7]) :=
  c1_roundtrip_framing [42, 7] (by decide)

/-- A buffer of length at least 5 starts with a five-byte header. -/
theorem exists_cons5 (buf : List Nat) (h : ¬ buf.length < 5) :
    ∃ f a b c d rest, buf = f :: a :: b :: c :: d :: rest := by
  rcases buf with _ | ⟨f, _ | ⟨a, _ | ⟨b, _ | ⟨c, _ | ⟨d, rest⟩⟩⟩⟩⟩
  · simp at h
  · simp at h
  · simp at h
  · simp at h
  · simp at h
  · exact ⟨f, a, b, c, d, rest, rfl⟩

/-- Structural facts about a successful drain: the remaining buffer is no longer
than the input and is quiescent (draining it again consumes nothing). -/
theorem drain_props : ∀ (n : Nat) (buf rem out : List Nat), buf.length ≤ n →
    drainLoop buf = some (rem, out) →
    rem.length ≤ buf.length ∧ drainLoop rem = some (rem, []) := by
  intro n
  induction n with
  | zero =>
    intro buf rem out hlen hd
    have hb : buf = [] := List.length_eq_zero.mp (Nat.le_zero.mp hlen)
    subst hb
    rw [drainLoop_short [] (by simp)] at hd
    simp only [Option.some.injEq, Prod.mk.injEq] at hd
    obtain ⟨h1, h2⟩ := hd
    subst h1
    exact ⟨le_refl _, drainLoop_short [] (by simp)⟩
  | succ n ih =>
    intro buf rem out hlen hd
    by_cases h5 : buf.length < 5
    · rw [drainLoop_short buf h5] at hd
      simp only [Option.some.injEq, Prod.mk.injEq] at hd
      obtain ⟨h1, h2⟩ := hd
      subst h1
      exact ⟨le_refl _, drainLoop_short buf h5⟩
    · obtain ⟨f, a, b, c, d, rest, rfl⟩ := exists_cons5 buf h5
      rw [drainLoop_cons] at hd
      by_cases hg : u32 (5 + rest.length) < u32 (5 + be32 a b c d)
      · rw [if_pos hg] at hd
        simp only [Option.some.injEq, Prod.mk.injEq] at hd
        obtain ⟨h1, h2⟩ := hd
        subst h1
        refine ⟨le_refl _, ?_⟩
        rw [drainLoop_cons, if_pos hg]
      · rw [if_neg hg] at hd
        by_cases hC : be32 a b c d ≤ rest.length
        · rw [if_pos hC] at hd
          cases hdrop : drainLoop (rest.drop (be32 a b c d)) with
          | none => rw [hdrop] at hd; simp at hd
          | some ro =>
            rw [hdrop] at hd
            simp only [Option.map_some', Option.some.injEq, Prod.mk.injEq] at hd
            obtain ⟨h1, h2⟩ := hd
            subst h1
            have hlen2 : (rest.drop (be32 a b c d)).length ≤ n := by
              rw [List.length_drop]
              simp only [List.length_cons] at hlen
              omega
            have hrec := ih (rest.drop (be32 a b c d)) ro.1 ro.2 hlen2 hdrop
            refine ⟨?_, hrec.2⟩
            have := hrec.1
            rw [List.length_drop] at this
            simp only [List.length_cons]
            omega
        · rw [if_neg hC] at hd
          simp at hd

/-- Corollary of drain_props at the buffer's own length. -/
theorem drain_some_props (buf rem out : List Nat) (hd : drainLoop buf = some (rem, out)) :
    rem.length ≤ buf.length ∧ drainLoop rem = some (rem, []) :=
  drain_props buf.length buf rem out (le_refl _) hd

/-- The length declared by the 4-byte big-endian field of the frame header at
the head of the accumulation buffer (0 when no full header is present). -/
def headDeclaredLen : List Nat → Nat
  | _ :: a :: b :: c :: d :: _ => be32 a b c d
  | _ => 0

/-- The buffer holds less than one complete native frame: fewer than 5 bytes,
or fewer bytes than 5 plus the declared length of the frame at its head. -/
def bufferIncomplete (buf : List Nat) : Prop :=
  buf.length < 5 ∨ buf.length < 5 + headDeclaredLen buf

/-- A quiescent buffer of fewer than 2^32 bytes holds less than one complete frame. -/
theorem quiescent_incomplete (buf : List Nat) (hq : drainLoop buf = some (buf, []))
    (hlen : buf.length < 4294967296) : bufferIncomplete buf := by
  by_cases h5 : buf.length < 5
  · exact Or.inl h5
  · obtain ⟨f, a, b, c, d, rest, rfl⟩ := exists_cons5 buf h5
    rw [drainLoop_cons] at hq
    by_cases hg : u32 (5 + rest.length) < u32 (5 + be32 a b c d)
    · right
      simp only [headDeclaredLen, List.length_cons]
      simp only [List.length_cons] at hlen
      have hbe : be32 a b c d < 4294967296 := by unfold be32; omega
      unfold u32 at hg
      omega
    · rw [if_neg hg] at hq
      by_cases hC : be32 a b c d ≤ rest.length
      · rw [if_pos hC] at hq
        cases hdrop : drainLoop (rest.drop (be32 a b c d)) with
        | none => rw [hdrop] at hq; simp at hq
        | some ro =>
          rw [hdrop] at hq
          simp only [Option.map_some', Option.some.injEq, Prod.mk.injEq] at hq
          have := hq.2
          simp [webDataFrame] at this
      · rw [if_neg hC] at hq
        simp at hq

/-- C9 (amended): after every successful return from StreamingResponseWriter.Write
that leaves fewer than 2^32 bytes buffered, the accumulation buffer holds less
than one complete native frame (fewer than 5 bytes, or 5 plus the declared
length of the head frame exceeds the buffered byte count). -/
theorem c9_backpressure (buf p rem out : List Nat)
    (h : srwWrite buf p = some (rem, out)) (hlen : rem.length < 4294967296) :
    bufferIncomplete rem :=
  quiescent_incomplete rem (drain_some_props (buf ++ p) rem out h).2 hlen

/-- Witness for C9: a write of a 5-byte header declaring one pending byte. -/
theorem c9_backpressure_witness : bufferIncomplete [0, 0, 0, 0, 1] := by
  refine c9_backpressure [] [0, 0, 0, 0, 1] [0, 0, 0, 0, 1] [] ?_ (by norm_num)
  show drainLoop ([] ++ [0, 0, 0, 0, 1]) = _
  rw [List.nil_append, drainLoop_cons, if_pos (by norm_num [u32, be32])]

/-- A 2^32-byte buffer whose head is a complete zero-length frame. -/
def c9Buf : List Nat := 0 :: 0 :: 0 :: 0 :: 0 :: List.replicate 4294967291 0

/-- C9 counterexample: a single Write of 2^32 bytes starting with a complete
zero-length native frame returns successfully, yet the frame is retained in
the accumulation buffer, because uint32(frameBuffer.Len()) wraps to 0 and the
comparison 0 < 5 stops the drain loop before the complete frame is emitted. -/
theorem c9_counterexample :
    srwWrite [] c9Buf = some (c9Buf, []) ∧ ¬ bufferIncomplete c9Buf := by
  have hg : u32 (5 + (List.replicate 4294967291 (0 : Nat)).length) < u32 (5 + be32 0 0 0 0) := by
    rw [List.length_replicate]
    norm_num [u32, be32]
  have hlen : c9Buf.length = 4294967296 := by
    show (0 :: 0 :: 0 :: 0 :: 0 :: List.replicate 4294967291 (0 : Nat)).length = 4294967296
    rw [List.length_cons, List.length_cons, List.length_cons, List.length_cons,
      List.length_cons, List.length_replicate]
  have hhead : headDeclaredLen c9Buf = 0 := by
    show be32 0 0 0 0 = 0
    norm_num [be32]
  constructor
  · show drainLoop ([] ++ c9Buf) = _
    rw [List.nil_append]
    show drainLoop (0 :: 0 :: 0 :: 0 :: 0 :: List.replicate 4294967291 0) = some (c9Buf, [])
    rw [drainLoop_cons, if_pos hg]
    rfl
  · intro hinc
    rcases hinc with h | h
    · rw [hlen] at h
      norm_num at h
    · rw [hlen, hhead] at h
      norm_num at h

/-- Incrementality of the drain loop below the uint32 wrap-around: draining
buf ++ q equals draining buf and then continuing with the remainder plus q,
provided the combined length stays below 2^32. -/
theorem drain_append : ∀ (n : Nat) (x q : List Nat), x.length ≤ n →
    x.length + q.length < 4294967296 →
    drainLoop (x ++ q) =
      (drainLoop x).bind (fun ro =>
        (drainLoop (ro.1 ++ q)).map (fun ro2 => (ro2.1, ro.2 ++ ro2.2))) := by
  intro n
  induction n with
  | zero =>
    intro x q hn hlt
    have hx : x = [] := List.length_eq_zero.mp (Nat.le_zero.mp hn)
    subst hx
    rw [drainLoop_short [] (by simp)]
    show drainLoop ([] ++ q) = (drainLoop ([] ++ q)).map (fun ro2 => (ro2.1, [] ++ ro2.2))
    rw [List.nil_append]
    cases drainLoop q with
    | none => rfl
    | some ro => rfl
  | succ n ih =>
    intro x q hn hlt
    by_cases h5 : x.length < 5
    · rw [drainLoop_short x h5]
      show drainLoop (x ++ q) = (drainLoop (x ++ q)).map (fun ro2 => (ro2.1, [] ++ ro2.2))
      cases drainLoop (x ++ q) with
      | none => rfl
      | some ro => rfl
    · obtain ⟨f, a, b, c, d, rest, rfl⟩ := exists_cons5 x h5
      have hbe : be32 a b c d < 4294967296 := by unfold be32; omega
      have hrest : rest.length + 5 + q.length < 4294967296 := by
        simp only [List.length_cons] at hlt
        omega
      have hrn : rest.length + 5 ≤ n + 1 := by
        simp only [List.length_cons] at hn
        omega
      by_cases hg : u32 (5 + rest.length) < u32 (5 + be32 a b c d)
      · have hx : drainLoop (f :: a :: b :: c :: d :: rest) =
            some (f :: a :: b :: c :: d :: rest, []) := by
          rw [drainLoop_cons, if_pos hg]
        rw [hx]
        show drainLoop ((f :: a :: b :: c :: d :: rest) ++ q) =
          (drainLoop ((f :: a :: b :: c :: d :: rest) ++ q)).map (fun ro2 => (ro2.1, [] ++ ro2.2))
        cases drainLoop ((f :: a :: b :: c :: d :: rest) ++ q) with
        | none => rfl
        | some ro => rfl
      · have hg' : ¬ u32 (5 + (rest ++ q).length) < u32 (5 + be32 a b c d) := by
          rw [List.length_append]
          unfold u32 at hg ⊢
          omega
        by_cases hC : be32 a b c d ≤ rest.length
        · have hC' : be32 a b c d ≤ (rest ++ q).length := by
            rw [List.length_append]
            omega
          have hx : drainLoop (f :: a :: b :: c :: d :: rest) =
              (drainLoop (rest.drop (be32 a b c d))).map
                (fun ro => (ro.1, webDataFrame (be32 a b c d) (rest.take (be32 a b c d)) ++ ro.2)) := by
            rw [drainLoop_cons, if_neg hg, if_pos hC]
          have hx' : drainLoop ((f :: a :: b :: c :: d :: rest) ++ q) =
              (drainLoop (rest.drop (be32 a b c d) ++ q)).map
                (fun ro => (ro.1, webDataFrame (be32 a b c d) (rest.take (be32 a b c d)) ++ ro.2)) := by
            simp only [List.cons_append]
            rw [drainLoop_cons, if_neg hg', if_pos hC']
            rw [List.drop_append_eq_append_drop, List.take_append_eq_append_take]
            rw [Nat.sub_eq_zero_of_le hC]
            rw [List.drop_zero, List.take_zero, List.append_nil]
          have hih := ih (rest.drop (be32 a b c d)) q
            (by rw [List.length_drop]; omega)
            (by rw [List.length_drop]; omega)
          rw [hx', hx, hih]
          cases hro : drainLoop (rest.drop (be32 a b c d)) with
          | none => rfl
          | some ro =>
            show ((drainLoop (ro.1 ++ q)).map (fun ro2 => (ro2.1, ro.2 ++ ro2.2))).map
                (fun ro3 => (ro3.1, webDataFrame (be32 a b c d) (rest.take (be32 a b c d)) ++ ro3.2)) =
              (drainLoop (ro.1 ++ q)).map
                (fun ro2 => (ro2.1, webDataFrame (be32 a b c d) (rest.take (be32 a b c d)) ++ ro.2 ++ ro2.2))
            cases drainLoop (ro.1 ++ q) with
            | none => rfl
            | some ro2 => simp [List.append_assoc]
        · have hC'' : ¬ be32 a b c d ≤ (rest ++ q).length := by
            rw [List.length_append]
            unfold u32 at hg
            omega
          have hx : drainLoop (f :: a :: b :: c :: d :: rest) = none := by
            rw [drainLoop_cons, if_neg hg, if_neg hC]
          rw [hx]
          show drainLoop ((f :: a :: b :: c :: d :: rest) ++ q) = none
          simp only [List.cons_append]
          rw [drainLoop_cons, if_neg hg', if_neg hC'']

/-- Feeding chunks one Write call at a time from a quiescent buffer equals one
single drain of the whole byte stream, below the uint32 wrap-around. -/
theorem writeSeq_drain : ∀ (chunks : List (List Nat)) (buf : List Nat),
    drainLoop buf = some (buf, []) → buf.length + chunks.flatten.length < 4294967296 →
    writeSeq buf chunks = drainLoop (buf ++ chunks.flatten) := by
  intro chunks
  induction chunks with
  | nil =>
    intro buf hq hlen
    rw [List.flatten_nil, List.append_nil]
    exact hq.symm
  | cons c cs ih =>
    intro buf hq hlen
    have hflat : buf ++ (c :: cs).flatten = (buf ++ c) ++ cs.flatten := by
      rw [List.flatten_cons, List.append_assoc]
    rw [hflat]
    have hlens : (buf ++ c).length + cs.flatten.length < 4294967296 := by
      rw [List.length_append]
      rw [List.flatten_cons, List.length_append] at hlen
      omega
    rw [drain_append ((buf ++ c).length) (buf ++ c) cs.flatten (le_refl _) hlens]
    show (match drainLoop (buf ++ c) with
      | some ro => (writeSeq ro.1 cs).map
          (fun ro2 : List Nat × List Nat => (ro2.1, ro.2 ++ ro2.2))
      | none => none) = _
    cases hd : drainLoop (buf ++ c) with
    | none => rfl
    | some ro =>
      have hprops := drain_some_props (buf ++ c) ro.1 ro.2 hd
      show (writeSeq ro.1 cs).map (fun ro2 => (ro2.1, ro.2 ++ ro2.2)) =
        (drainLoop (ro.1 ++ cs.flatten)).map (fun ro2 => (ro2.1, ro.2 ++ ro2.2))
      rw [ih ro.1 hprops.2 ?_]
      have h1 := hprops.1
      rw [List.length_append] at h1
      omega

/-- Draining a concatenation of complete native frames emits exactly the
corresponding web DATA frames and ends with an empty buffer. -/
theorem drain_frameSeq : ∀ (payloads : List (List Nat)),
    (∀ p ∈ payloads, p.length < 4294967296) →
    ((payloads.map nativeFrame).flatten).length < 4294967296 →
    drainLoop (payloads.map nativeFrame).flatten =
      some ([], (payloads.map (fun p => webDataFrame p.length p)).flatten) := by
  intro payloads
  induction payloads with
  | nil =>
    intro _ _
    simp only [List.map_nil, List.flatten_nil]
    exact drainLoop_short [] (by simp)
  | cons p ps ih =>
    intro hall hlen
    simp only [List.map_cons, List.flatten_cons] at hlen ⊢
    have hp : p.length < 4294967296 := hall p (by simp)
    have hlens : (nativeFrame p).length + ((ps.map nativeFrame).flatten).length < 4294967296 := by
      rw [List.length_append] at hlen
      omega
    rw [drain_append (nativeFrame p).length (nativeFrame p) _ (le_refl _) hlens]
    rw [drain_nativeFrame p hp]
    show (drainLoop ([] ++ (ps.map nativeFrame).flatten)).map
      (fun ro2 => (ro2.1, webDataFrame p.length p ++ ro2.2)) = _
    rw [List.nil_append]
    rw [ih (fun q hq => hall q (List.mem_cons_of_mem p hq)) ?_]
    · rfl
    · rw [List.length_append] at hlen
      omega

/-- C2 (amended): for every sequence of complete native frames whose total byte
length is below 2^32 and every partition of its byte stream into chunks,
feeding the chunks to StreamingResponseWriter.Write one call at a time yields
the same result (emitted web frames and final accumulation buffer) as a single
Write of the whole stream, namely exactly the corresponding sequence of web
DATA frames with an empty buffer left over.  Below 2^32 no partial-frame bytes
are ever discarded, since the final buffer state coincides. -/
theorem c2_chunked_writes (payloads chunks : List (List Nat))
    (hchunks : chunks.flatten = (payloads.map nativeFrame).flatten)
    (hp : ∀ p ∈ payloads, p.length < 4294967296)
    (htot : chunks.flatten.length < 4294967296) :
    writeSeq [] chunks = drainLoop chunks.flatten ∧
    writeSeq [] chunks =
      some ([], (payloads.map (fun p => webDataFrame p.length p)).flatten) := by
  have h1 : writeSeq [] chunks = drainLoop ([] ++ chunks.flatten) :=
    writeSeq_drain chunks [] (drainLoop_short [] (by simp)) (by simpa using htot)
  rw [List.nil_append] at h1
  refine ⟨h1, ?_⟩
  rw [h1, hchunks]
  rw [hchunks] at htot
  exact drain_frameSeq payloads hp htot

/-- Witness for C2: the native frame for payload [9] split into a 4-byte chunk
and a 2-byte chunk. -/
theorem c2_chunked_writes_witness :
    writeSeq [] [[0, 0, 0, 0], [1, 9]] = drainLoop ([[0, 0, 0, 0], [1, 9]] : List (List Nat)).flatten ∧
    writeSeq [] [[0, 0, 0, 0], [1, 9]] =
      some ([], (([[9]] : List (List Nat)).map (fun p => webDataFrame p.length p)).flatten) :=
  c2_chunked_writes [[9]] [[0, 0, 0, 0], [1, 9]] (by decide) (by decide) (by decide)

/-- The 5-byte native frame header declaring a payload of 2^32 - 1 bytes. -/
def c2Chunk1 : List Nat := [0, 255, 255, 255, 255]

/-- The 2^32 - 1 payload bytes of that frame. -/
def c2Chunk2 : List Nat := List.replicate 4294967295 0

/-- C2 counterexample: the byte stream of one complete native frame with
declared length 2^32 - 1, partitioned into its 5-byte header and its payload.
Feeding the chunks one Write call at a time fails on the first call (the
uint32 sum 5+length wraps to 4, the drain loop consumes the header, and
io.CopyN then fails on the empty buffer), while a single Write of the whole
stream succeeds and emits the web frame — so chunked and unchunked writes
disagree, refuting the claim as stated for every sequence of complete frames. -/
theorem c2_counterexample :
    c2Chunk1 ++ c2Chunk2 = nativeFrame (List.replicate 4294967295 0) ∧
    writeSeq [] [c2Chunk1, c2Chunk2] = none ∧
    drainLoop (c2Chunk1 ++ c2Chunk2) =
      some ([], webDataFrame 4294967295 (List.replicate 4294967295 0)) := by
  have hbe : be32 255 255 255 255 = 4294967295 := by norm_num [be32]
  refine ⟨?_, ?_, ?_⟩
  · show [0, 255, 255, 255, 255] ++ List.replicate 4294967295 0 =
      0 :: be32encode ((List.replicate 4294967295 (0 : Nat)).length) ++ List.replicate 4294967295 0
    rw [List.length_replicate]
    have henc : be32encode 4294967295 = [255, 255, 255, 255] := by norm_num [be32encode]
    rw [henc]
  · have hd : drainLoop (([] : List Nat) ++ c2Chunk1) = none := by
      rw [List.nil_append]
      show drainLoop (0 :: 255 :: 255 :: 255 :: 255 :: []) = none
      have h1 : ¬ u32 (5 + ([] : List Nat).length) < u32 (5 + be32 255 255 255 255) := by
        rw [hbe]
        norm_num [u32]
      have h2 : ¬ be32 255 255 255 255 ≤ ([] : List Nat).length := by
        rw [hbe]
        norm_num
      rw [drainLoop_cons, if_neg h1, if_neg h2]
    show (match drainLoop ([] ++ c2Chunk1) with
      | some ro => (writeSeq ro.1 [c2Chunk2]).map
          (fun ro2 : List Nat × List Nat => (ro2.1, ro.2 ++ ro2.2))
      | none => none) = none
    rw [hd]
  · have hcat : c2Chunk1 ++ c2Chunk2 =
        0 :: 255 :: 255 :: 255 :: 255 :: List.replicate 4294967295 0 := rfl
    rw [hcat, drainLoop_cons, hbe, List.length_replicate]
    have hg : ¬ u32 (5 + 4294967295) < u32 (5 + 4294967295) := lt_irrefl _
    rw [if_neg hg, if_pos (le_refl 4294967295)]
    have hdrop : (List.replicate 4294967295 (0 : Nat)).drop 4294967295 = [] := by
      rw [List.drop_replicate, Nat.sub_self, List.replicate_zero]
    have htake : (List.replicate 4294967295 (0 : Nat)).take 4294967295 =
        List.replicate 4294967295 0 := by
      rw [List.take_replicate, min_self]
    rw [hdrop, htake, drainLoop_short [] (by norm_num)]
    show some (([] : List Nat), webDataFrame 4294967295 (List.replicate 4294967295 0) ++ []) = _
    rw [List.append_nil]

/-- grpc codes.OK. -/
def codesOK : Nat := 0

/-- grpc codes.Unknown. -/
def codesUnknown : Nat := 2

/-- grpc codes.PermissionDenied. -/
def codesPermissionDenied : Nat := 7

/-- grpc codes.Unimplemented. -/
def codesUnimplemented : Nat := 12

/-- grpc codes.Internal. -/
def codesInternal : Nat := 13

/-- grpc codes.Unavailable. -/
def codesUnavailable : Nat := 14

/-- grpc codes.Unauthenticated. -/
def codesUnauthenticated : Nat := 16

/-- httpStatusToGrpcCode (grpcweb.go lines 265-282): the fixed switch from HTTP
status codes to gRPC status codes, defaulting to Unknown. -/
def httpStatusToGrpcCode (httpStatusCode : Nat) : Nat :=
  match httpStatusCode with
  | 200 => codesOK
  | 400 => codesInternal
  | 401 => codesUnauthenticated
  | 403 => codesPermissionDenied
  | 404 => codesUnimplemented
  | 429 => codesUnavailable
  | 502 => codesUnavailable
  | 503 => codesUnavailable
  | 504 => codesUnavailable
  | _ => codesUnknown

/-- C5: Status code mapping: httpStatusToGrpcCode maps 200 to OK, 400 to
Internal, 401 to Unauthenticated, 403 to PermissionDenied, 404 to
Unimplemented, each of 429, 502, 503, 504 to Unavailable, and every other
input to Unknown; being a Lean function it is total and deterministic. -/
theorem c5_status_mapping :
    httpStatusToGrpcCode 200 = codesOK ∧
    httpStatusToGrpcCode 400 = codesInternal ∧
    httpStatusToGrpcCode 401 = codesUnauthenticated ∧
    httpStatusToGrpcCode 403 = codesPermissionDenied ∧
    httpStatusToGrpcCode 404 = codesUnimplemented ∧
    httpStatusToGrpcCode 429 = codesUnavailable ∧
    httpStatusToGrpcCode 502 = codesUnavailable ∧
    httpStatusToGrpcCode 503 = codesUnavailable ∧
    httpStatusToGrpcCode 504 = codesUnavailable ∧
    ∀ n : Nat, n ∉ ([200, 400, 401, 403, 404, 429, 502, 503, 504] : List Nat) →
      httpStatusToGrpcCode n = codesUnknown := by
  refine ⟨rfl, rfl, rfl, rfl, rfl, rfl, rfl, rfl, rfl, ?_⟩
  intro n hn
  simp only [List.mem_cons, List.not_mem_nil, or_false, not_or] at hn
  unfold httpStatusToGrpcCode
  split
  · simp_all
  · simp_all
  · simp_all
  · simp_all
  · simp_all
  · simp_all
  · simp_all
  · simp_all
  · simp_all
  · rfl

/-- Witness for C5 at the unmapped status code 500. -/
theorem c5_status_mapping_witness : httpStatusToGrpcCode 500 = codesUnknown :=
  c5_status_mapping.2.2.2.2.2.2.2.2.2 500 (by decide)

/-- ContentTypeGRPCWeb constant (grpcweb.go line 19). -/
def ContentTypeGRPCWeb : String := "application/grpc-web"

/-- ContentTypeGRPCWebText constant (grpcweb.go line 21). -/
def ContentTypeGRPCWebText : String := "application/grpc-web-text"

/-- ContentTypeGRPCWebProto constant (grpcweb.go line 23). -/
def ContentTypeGRPCWebProto : String := "application/grpc-web+proto"

/-- ContentTypeGRPCWebTextProto constant (grpcweb.go line 25). -/
def ContentTypeGRPCWebTextProto : String := "application/grpc-web-text+proto"

/-- ContentTypeGRPC constant (grpcweb.go line 27). -/
def ContentTypeGRPC : String := "application/grpc"

/-- strings.HasSuffix on the underlying character sequences. -/
def hasSuffixStr (s suf : String) : Bool :=
  List.isSuffixOf suf.data s.data

/-- Substring search over character lists (strings.Contains): the needle is a
prefix of some suffix of the haystack; the empty needle always matches. -/
def containsSub (h n : List Char) : Bool :=
  match h with
  | [] => n.isEmpty
  | _ :: t => n.isPrefixOf h || containsSub t n

/-- strings.Contains on the underlying character sequences. -/
def strContainsStr (s sub : String) : Bool :=
  containsSub s.data sub.data

/-- IsTextRequest (grpcweb.go lines 258-263), as a function of the request's
Content-Type and Accept header values. -/
def IsTextRequest (contentType accept : String) : Bool :=
  hasSuffixStr contentType "-text" || strContainsStr accept ContentTypeGRPCWebText

/-- C10: for a request whose Content-Type is exactly
application/grpc-web-text+proto and whose Accept header does not contain the
substring application/grpc-web-text, IsTextRequest returns false: the
content-type test demands the suffix "-text", which "-text+proto" lacks. -/
theorem c10_text_negotiation (accept : String)
    (h : strContainsStr accept ContentTypeGRPCWebText = false) :
    IsTextRequest ContentTypeGRPCWebTextProto accept = false := by
  unfold IsTextRequest
  rw [h, Bool.or_false]
  decide

/-- Witness for C10 with Accept header application/grpc. -/
theorem c10_text_negotiation_witness :
    IsTextRequest ContentTypeGRPCWebTextProto "application/grpc" = false :=
  c10_text_negotiation "application/grpc" (by decide)

/-- Errors observable from FrameReader.Read: the clean io.EOF value, the
io.ErrUnexpectedEOF produced by io.ReadFull after a partial header, an
arbitrary non-EOF failure of the underlying source, and the wrapping applied
by fmt.Errorf("error copying frame data: %w", err). -/
inductive RErr where
  | eof
  | unexpectedEof
  | sourceFailure
  | wrapped (e : RErr)
deriving DecidableEq

/-- Result of one FrameReader.Read call: the bytes returned to the caller, the
new internal buffer, the remaining source bytes, and the error, if any. -/
structure ReadResult where
  bytes : List Nat
  buffer : List Nat
  src : List Nat
  err : Option RErr
deriving DecidableEq

/-- The native gRPC message header FrameReader.Read writes into its buffer
(grpcweb.go lines 70-73): compression flag 0 plus the 4-byte length. -/
def nativeHeader (len : Nat) : List Nat := 0 :: be32encode len

/-- FrameReader.Read (grpcweb.go lines 53-82).  buffer is fr.buffer, src holds
the bytes the source will still deliver before it ends, srcFails selects
whether the source then ends with a non-EOF failure instead of a clean
end-of-stream, and k is len(p).  io.ReadFull turns a clean end after 1-4
header bytes into io.ErrUnexpectedEOF and passes other errors through;
io.CopyN reports the source's error (io.EOF on a clean early end), which Read
wraps via fmt.Errorf. -/
def frameReaderRead (buffer src : List Nat) (srcFails : Bool) (k : Nat) : ReadResult :=
  if buffer.length > 0 then
    { bytes := buffer.take k, buffer := buffer.drop k, src := src, err := none }
  else
    match src with
    | f :: a :: b :: c :: d :: rest =>
      if f ≠ grpcDataFrame then
        { bytes := [], buffer := buffer, src := rest, err := some RErr.eof }
      else
        if be32 a b c d > 0 then
          if be32 a b c d ≤ rest.length then
            { bytes := (nativeHeader (be32 a b c d) ++ rest.take (be32 a b c d)).take k,
              buffer := (nativeHeader (be32 a b c d) ++ rest.take (be32 a b c d)).drop k,
              src := rest.drop (be32 a b c d), err := none }
          else
            { bytes := [], buffer := nativeHeader (be32 a b c d) ++ rest, src := [],
              err := some (RErr.wrapped (if srcFails then RErr.sourceFailure else RErr.eof)) }
        else
          { bytes := (nativeHeader (be32 a b c d)).take k,
            buffer := (nativeHeader (be32 a b c d)).drop k,
            src := rest, err := none }
    | shortSrc =>
      { bytes := [], buffer := buffer, src := [],
        err := some (if srcFails then RErr.sourceFailure
          else if shortSrc.length = 0 then RErr.eof else RErr.unexpectedEof) }

/-- Evaluation of FrameReader.Read on a fresh reader whose source ends inside
the 5-byte header. -/
theorem frameReaderRead_shortHeader (src : List Nat) (srcFails : Bool) (k : Nat)
    (h : src.length < 5) :
    frameReaderRead [] src srcFails k =
      { bytes := [], buffer := [], src := [],
        err := some (if srcFails then RErr.sourceFailure
          else if src.length = 0 then RErr.eof else RErr.unexpectedEof) } := by
  rcases src with _ | ⟨x1, _ | ⟨x2, _ | ⟨x3, _ | ⟨x4, _ | ⟨x5, tl⟩⟩⟩⟩⟩
  · rfl
  · rfl
  · rfl
  · rfl
  · rfl
  · simp only [List.length_cons] at h; omega

/-- Evaluation of FrameReader.Read on a fresh reader whose source delivers a
complete data-frame header but fewer payload bytes than declared. -/
theorem frameReaderRead_truncatedPayload (a b c d : Nat) (rest : List Nat)
    (srcFails : Bool) (k : Nat) (hlen : rest.length < be32 a b c d) :
    frameReaderRead [] (0 :: a :: b :: c :: d :: rest) srcFails k =
      { bytes := [], buffer := nativeHeader (be32 a b c d) ++ rest, src := [],
        err := some (RErr.wrapped (if srcFails then RErr.sourceFailure else RErr.eof)) } := by
  have hpos : be32 a b c d > 0 := by omega
  have hnle : ¬ be32 a b c d ≤ rest.length := by omega
  simp only [frameReaderRead, grpcDataFrame, List.length_nil]
  rw [if_neg (by norm_num : ¬ (0 : Nat) > 0)]
  rw [if_neg (by norm_num : ¬ (0 : Nat) ≠ 0)]
  rw [if_pos hpos, if_neg hnle]

/-- C6: Protocol truncation: for every fresh-reader input stream that ends
(cleanly or with a source failure) after 1 to 4 bytes of the 5-byte web frame
header, or that ends with a data-frame header whose declared payload length
exceeds the bytes actually supplied, FrameReader.Read returns zero bytes and a
non-nil error different from the clean io.EOF value. -/
theorem c6_truncation_error (src : List Nat) (srcFails : Bool) (k : Nat)
    (h : (1 ≤ src.length ∧ src.length ≤ 4) ∨
      (∃ a b c d rest, src = 0 :: a :: b :: c :: d :: rest ∧ rest.length < be32 a b c d)) :
    (frameReaderRead [] src srcFails k).bytes = [] ∧
    ∃ e, (frameReaderRead [] src srcFails k).err = some e ∧ e ≠ RErr.eof := by
  rcases h with ⟨h1, h4⟩ | ⟨a, b, c, d, rest, rfl, hlen⟩
  · rw [frameReaderRead_shortHeader src srcFails k (by omega)]
    refine ⟨rfl, ?_⟩
    have hz : ¬ src.length = 0 := by omega
    rw [if_neg hz]
    cases srcFails
    · exact ⟨RErr.unexpectedEof, rfl, by simp⟩
    · exact ⟨RErr.sourceFailure, rfl, by simp⟩
  · rw [frameReaderRead_truncatedPayload a b c d rest srcFails k hlen]
    refine ⟨rfl, ?_⟩
    cases srcFails
    · exact ⟨RErr.wrapped RErr.eof, rfl, by simp⟩
    · exact ⟨RErr.wrapped RErr.sourceFailure, rfl, by simp⟩

/-- Witness for C6: a 5-byte data-frame header declaring 1 payload byte, with
the source ending cleanly before that byte arrives. -/
theorem c6_truncation_error_witness :
    (frameReaderRead [] [0, 0, 0, 0, 1] false 64).bytes = [] ∧
    ∃ e, (frameReaderRead [] [0, 0, 0, 0, 1] false 64).err = some e ∧ e ≠ RErr.eof :=
  c6_truncation_error [0, 0, 0, 0, 1] false 64
    (Or.inr ⟨0, 0, 0, 1, [], rfl, by norm_num [be32]⟩)

/-- Go http.Header modelled as an association list from canonical field name to
the value slice.  Go maps are unordered with unique keys; lookups here take the
first matching entry, which agrees with map access, and entry order is
immaterial to every property proved below. -/
abbrev Header := List (String × List String)

/-- Map access h[k], as an Option. -/
def lookupH (h : Header) (k : String) : Option (List String) :=
  (h.find? (fun e => e.1 == k)).map (fun e => e.2)

/-- http.Header.Get: first value of the entry, or the empty string. -/
def getH (h : Header) (k : String) : String :=
  match lookupH h k with
  | some (v :: _) => v
  | _ => ""

/-- Map assignment h[k] = vs (replace or add the entry for k). -/
def setVals (h : Header) (k : String) (vs : List String) : Header :=
  h.filter (fun e => e.1 != k) ++ [(k, vs)]

/-- http.Header.Set: replace the entry with the single value v. -/
def setH (h : Header) (k v : String) : Header := setVals h k [v]

/-- http.Header.Add: append v to the entry's values. -/
def addH (h : Header) (k v : String) : Header :=
  setVals h k (((lookupH h k).getD []) ++ [v])

/-- Map deletion delete(h, k). -/
def delH (h : Header) (k : String) : Header :=
  h.filter (fun e => e.1 != k)

/-- Cons unfolding of lookupH. -/
theorem lookupH_cons (e : String × List String) (t : Header) (k : String) :
    lookupH (e :: t) k = if e.1 == k then some e.2 else lookupH t k := by
  unfold lookupH
  cases hbe : e.1 == k
  · simp [List.find?, hbe]
  · simp [List.find?, hbe]

/-- Looking up the key just assigned yields the assigned values. -/
theorem lookupH_setVals_self (h : Header) (k : String) (vs : List String) :
    lookupH (setVals h k vs) k = some vs := by
  unfold setVals
  induction h with
  | nil => simp [lookupH_cons]
  | cons e t ih =>
    rw [List.filter_cons]
    by_cases he : e.1 = k
    · rw [if_neg (by simp [he])]
      exact ih
    · rw [if_pos (by simpa using he), List.cons_append, lookupH_cons,
        if_neg (by simpa using he)]
      exact ih

/-- Assigning one key leaves lookups of other keys unchanged. -/
theorem lookupH_setVals_other (h : Header) (k k' : String) (vs : List String)
    (hne : k' ≠ k) : lookupH (setVals h k vs) k' = lookupH h k' := by
  unfold setVals
  induction h with
  | nil => simp [lookupH_cons, lookupH, List.find?, show ¬ (k == k') by simpa using Ne.symm hne]
  | cons e t ih =>
    rw [List.filter_cons]
    by_cases he : e.1 = k
    · rw [if_neg (by simp [he])]
      rw [lookupH_cons, if_neg (by simp [he]; exact Ne.symm hne)]
      exact ih
    · rw [if_pos (by simpa using he), List.cons_append, lookupH_cons, lookupH_cons]
      by_cases he' : e.1 == k'
      · rw [if_pos he', if_pos he']
      · rw [if_neg he', if_neg he']
        exact ih

/-- Looking up a deleted key yields none. -/
theorem lookupH_delH_self (h : Header) (k : String) :
    lookupH (delH h k) k = none := by
  unfold delH
  induction h with
  | nil => rfl
  | cons e t ih =>
    rw [List.filter_cons]
    by_cases he : e.1 = k
    · rw [if_neg (by simp [he])]
      exact ih
    · rw [if_pos (by simpa using he), lookupH_cons, if_neg (by simpa using he)]
      exact ih

/-- Deleting one key leaves lookups of other keys unchanged. -/
theorem lookupH_delH_other (h : Header) (k k' : String) (hne : k' ≠ k) :
    lookupH (delH h k) k' = lookupH h k' := by
  unfold delH
  induction h with
  | nil => rfl
  | cons e t ih =>
    rw [List.filter_cons]
    by_cases he : e.1 = k
    · rw [if_neg (by simp [he])]
      rw [lookupH_cons, if_neg (by simp [he]; exact Ne.symm hne)]
      exact ih
    · rw [if_pos (by simpa using he), lookupH_cons, lookupH_cons]
      by_cases he' : e.1 == k'
      · rw [if_pos he', if_pos he']
      · rw [if_neg he', if_neg he']
        exact ih

/-- getH of the key just set by setH. -/
theorem getH_setH_self (h : Header) (k v : String) : getH (setH h k v) k = v := by
  unfold getH setH
  rw [lookupH_setVals_self]

/-- getH of another key after setH. -/
theorem getH_setH_other (h : Header) (k k' v : String) (hne : k' ≠ k) :
    getH (setH h k v) k' = getH h k' := by
  unfold getH setH
  rw [lookupH_setVals_other h k k' [v] hne]

/-- The apostrophe character (U+0027), used in one standard status text. -/
def apos : String := (Char.ofNat 39).toString

/-- net/http StatusText: the standard text for known HTTP status codes and the
empty string for everything else. -/
def statusText (code : Nat) : String :=
  match code with
  | 100 => "Continue"
  | 101 => "Switching Protocols"
  | 102 => "Processing"
  | 103 => "Early Hints"
  | 200 => "OK"
  | 201 => "Created"
  | 202 => "Accepted"
  | 203 => "Non-Authoritative Information"
  | 204 => "No Content"
  | 205 => "Reset Content"
  | 206 => "Partial Content"
  | 207 => "Multi-Status"
  | 208 => "Already Reported"
  | 226 => "IM Used"
  | 300 => "Multiple Choices"
  | 301 => "Moved Permanently"
  | 302 => "Found"
  | 303 => "See Other"
  | 304 => "Not Modified"
  | 305 => "Use Proxy"
  | 307 => "Temporary Redirect"
  | 308 => "Permanent Redirect"
  | 400 => "Bad Request"
  | 401 => "Unauthorized"
  | 402 => "Payment Required"
  | 403 => "Forbidden"
  | 404 => "Not Found"
  | 405 => "Method Not Allowed"
  | 406 => "Not Acceptable"
  | 407 => "Proxy Authentication Required"
  | 408 => "Request Timeout"
  | 409 => "Conflict"
  | 410 => "Gone"
  | 411 => "Length Required"
  | 412 => "Precondition Failed"
  | 413 => "Request Entity Too Large"
  | 414 => "Request URI Too Long"
  | 415 => "Unsupported Media Type"
  | 416 => "Requested Range Not Satisfiable"
  | 417 => "Expectation Failed"
  | 418 => "I" ++ apos ++ "m a teapot"
  | 421 => "Misdirected Request"
  | 422 => "Unprocessable Entity"
  | 423 => "Locked"
  | 424 => "Failed Dependency"
  | 425 => "Too Early"
  | 426 => "Upgrade Required"
  | 428 => "Precondition Required"
  | 429 => "Too Many Requests"
  | 431 => "Request Header Fields Too Large"
  | 451 => "Unavailable For Legal Reasons"
  | 500 => "Internal Server Error"
  | 501 => "Not Implemented"
  | 502 => "Bad Gateway"
  | 503 => "Service Unavailable"
  | 504 => "Gateway Timeout"
  | 505 => "HTTP Version Not Supported"
  | 506 => "Variant Also Negotiates"
  | 507 => "Insufficient Storage"
  | 508 => "Loop Detected"
  | 510 => "Not Extended"
  | 511 => "Network Authentication Required"
  | _ => ""

/-- The trailer-synthesis step of StreamingResponseWriter.Finish (grpcweb.go
lines 184-190): if no Grpc-Status is set, derive one from the captured status
code; if additionally no Grpc-Message is set and the captured code is not 200,
insert http.StatusText of the captured code. -/
def finishTrailers (trailers : Header) (captured : Nat) : Header :=
  let t1 :=
    if getH trailers "Grpc-Status" = "" then
      setH trailers "Grpc-Status" (toString (httpStatusToGrpcCode captured))
    else trailers
  if getH t1 "Grpc-Message" = "" ∧ captured ≠ 200 then
    setH t1 "Grpc-Message" (statusText captured)
  else t1

/-- The mapped gRPC code is nonzero whenever the HTTP code is not 200. -/
theorem httpStatusToGrpcCode_ne_zero (n : Nat) (hn : n ≠ 200) :
    httpStatusToGrpcCode n ≠ 0 := by
  unfold httpStatusToGrpcCode
  split
  · simp_all
  · simp_all [codesInternal]
  · simp_all [codesUnauthenticated]
  · simp_all [codesPermissionDenied]
  · simp_all [codesUnimplemented]
  · simp_all [codesUnavailable]
  · simp_all [codesUnavailable]
  · simp_all [codesUnavailable]
  · simp_all [codesUnavailable]
  · simp_all [codesUnknown]

/-- C4 (amended): if the trailer set has no Grpc-Status when Finish runs, then
Finish sets Grpc-Status to 0 when the captured status code is 200; otherwise
it sets Grpc-Status to the (nonzero) code from the fixed mapping table and,
when no Grpc-Message was set either, inserts the standard HTTP status text of
the captured code as the message -- a default that is non-empty for standard
HTTP codes but empty for codes outside the standard table. -/
theorem c4_trailer_synthesis (trailers : Header) (captured : Nat)
    (hno : getH trailers "Grpc-Status" = "") :
    (captured = 200 → getH (finishTrailers trailers captured) "Grpc-Status" = "0") ∧
    (captured ≠ 200 →
      getH (finishTrailers trailers captured) "Grpc-Status" =
        toString (httpStatusToGrpcCode captured) ∧
      httpStatusToGrpcCode captured ≠ 0 ∧
      (getH trailers "Grpc-Message" = "" →
        getH (finishTrailers trailers captured) "Grpc-Message" = statusText captured)) := by
  unfold finishTrailers
  rw [if_pos hno]
  constructor
  · intro h200
    subst h200
    rw [if_neg (by simp)]
    exact getH_setH_self trailers "Grpc-Status" _
  · intro hne
    by_cases hmsg : getH (setH trailers "Grpc-Status"
        (toString (httpStatusToGrpcCode captured))) "Grpc-Message" = ""
    · rw [if_pos ⟨hmsg, hne⟩]
      refine ⟨?_, httpStatusToGrpcCode_ne_zero captured hne, ?_⟩
      · rw [getH_setH_other _ "Grpc-Message" "Grpc-Status" _ (by decide)]
        exact getH_setH_self trailers "Grpc-Status" _
      · intro _
        exact getH_setH_self _ "Grpc-Message" _
    · rw [if_neg (by simp [hmsg])]
      refine ⟨getH_setH_self trailers "Grpc-Status" _,
        httpStatusToGrpcCode_ne_zero captured hne, ?_⟩
      intro hm
      exfalso
      apply hmsg
      rw [getH_setH_other _ "Grpc-Status" "Grpc-Message" _ (by decide)]
      exact hm

/-- Witness for C4: empty trailers and captured status 404 produce the mapped
nonzero code 12 (Unimplemented) and the standard message. -/
theorem c4_trailer_synthesis_witness :
    getH (finishTrailers [] 404) "Grpc-Status" = "12" ∧
    getH (finishTrailers [] 404) "Grpc-Message" = "Not Found" := by
  have h := (c4_trailer_synthesis [] 404 rfl).2 (by norm_num)
  refine ⟨?_, ?_⟩
  · rw [h.1]
    rfl
  · rw [h.2.2 rfl]
    rfl

/-- C4 counterexample: with empty trailers and captured status 599 (a code
outside the standard HTTP table), Finish sets the nonzero Grpc-Status 2
(Unknown) but inserts the empty string as Grpc-Message, so no non-empty
Grpc-Message is present, contrary to the claim. -/
theorem c4_counterexample :
    getH (finishTrailers [] 599) "Grpc-Status" = "2" ∧
    getH (finishTrailers [] 599) "Grpc-Message" = "" := by
  constructor
  · rfl
  · rfl

/-- Valid HTTP header token characters (net/textproto validHeaderFieldByte):
letters, digits, and the RFC 7230 token specials.  The apostrophe (0x27) and
backtick (0x60) specials are written via their code points. -/
def isTokenChar (c : Char) : Bool :=
  c.isAlphanum || c ∈ ['!', '#', '$', '%', '&', '*', '+', '-', '.', '^', '_', '|', '~']
    || c = Char.ofNat 39 || c = Char.ofNat 96

/-- Case canonicalization of a header key: uppercase the first letter and every
letter following a dash, lowercase the rest. -/
def canonAux : Bool → List Char → List Char
  | _, [] => []
  | up, ch :: t => (if up then ch.toUpper else ch.toLower) :: canonAux (ch == '-') t

/-- textproto.CanonicalMIMEHeaderKey: canonicalize the case of a valid header
key; a key containing an invalid byte is returned unchanged. -/
def canonKey (s : String) : String :=
  if s.data.all isTokenChar then String.mk (canonAux true s.data) else s

/-- Unicode white space in the Latin-1 range (Go unicode.IsSpace): space, tab,
newline, vertical tab, form feed, carriage return, NEL, NBSP. -/
def isSpaceChar (c : Char) : Bool :=
  c = ' ' || c = '\t' || c = '\n' || c = Char.ofNat 11 || c = Char.ofNat 12
    || c = '\r' || c = Char.ofNat 133 || c = Char.ofNat 160

/-- strings.TrimSpace. -/
def trimSpaceStr (s : String) : String :=
  String.mk (((s.data.dropWhile isSpaceChar).reverse.dropWhile isSpaceChar).reverse)

/-- Splitting a character list at every comma (strings.Split with separator ","). -/
def splitComma : List Char → List (List Char)
  | [] => [[]]
  | ch :: t =>
    if ch = ',' then [] :: splitComma t
    else
      match splitComma t with
      | g :: gs => (ch :: g) :: gs
      | [] => [[ch]]

/-- strings.Split(s, ","). -/
def splitCommaStr (s : String) : List String :=
  (splitComma s.data).map (fun l => String.mk l)

/-- The response-writer state acted on by writeHeaders: the buffered headers,
the captured trailers, the captured status code, the text-mode flag, the
write-once flag, and the underlying ResponseWriter's header map. -/
structure SRWState where
  headers : Header
  trailers : Header
  capturedStatusCode : Nat
  isTextResponse : Bool
  headersWritten : Bool
  transport : Header

/-- One step of the trailer-promotion loop (grpcweb.go lines 226-232): for one
announced name, canonicalize it and, when present among the buffered headers,
move the entry into the trailers. -/
def promoteKey (p : Header × Header) (key : String) : Header × Header :=
  match lookupH p.1 (canonKey (trimSpaceStr key)) with
  | some v => (delH p.1 (canonKey (trimSpaceStr key)),
      setVals p.2 (canonKey (trimSpaceStr key)) v)
  | none => p

/-- The full trailer-promotion pass (grpcweb.go lines 224-234): for every value
of the Trailer announcement header, split it on commas and promote each name. -/
def promoteAll (headers trailers : Header) : Header × Header :=
  match lookupH headers "Trailer" with
  | some tvs => tvs.foldl (fun p tv => (splitCommaStr tv).foldl promoteKey p) (headers, trailers)
  | none => (headers, trailers)

/-- Copying the remaining buffered headers to the transport header map,
skipping Content-Type and Content-Length (grpcweb.go lines 237-241). -/
def copyHeaders (hs : Header) (transport : Header) : Header :=
  hs.foldl (fun t e =>
    if e.1 ≠ "Content-Type" ∧ e.1 ≠ "Content-Length" then setVals t e.1 e.2 else t) transport

/-- StreamingResponseWriter.writeHeaders (grpcweb.go lines 218-251): no-op when
headers were already written; otherwise promote announced trailers, drop the
Trailer field, copy the rest to the transport, force Content-Type by mode, add
the Access-Control-Expose-Headers entry, and emit transport status 200.  The
second component is the status code passed to the underlying WriteHeader. -/
def writeHeaders (s : SRWState) : SRWState × Option Nat :=
  if s.headersWritten then (s, none)
  else
    let p := promoteAll s.headers s.trailers
    let hs := delH p.1 "Trailer"
    let t1 := copyHeaders hs s.transport
    let t2 := setH t1 "Content-Type"
      (if s.isTextResponse then ContentTypeGRPCWebTextProto else ContentTypeGRPCWebProto)
    let t3 := addH t2 "Access-Control-Expose-Headers" "grpc-status, grpc-message"
    ({ s with headers := hs, trailers := p.2, headersWritten := true, transport := t3 },
      some 200)

/-- C7: whenever headers are finalized (the write-once flag is still unset),
the transport-level status passed to the underlying ResponseWriter is 200
regardless of the captured status code, Content-Type on the transport is
forced to exactly the fixed value selected by text/binary mode, and an
Access-Control-Expose-Headers entry with value "grpc-status, grpc-message" is
added. -/
theorem c7_header_finalization (s : SRWState) (hw : s.headersWritten = false) :
    (writeHeaders s).2 = some 200 ∧
    getH (writeHeaders s).1.transport "Content-Type" =
      (if s.isTextResponse then ContentTypeGRPCWebTextProto else ContentTypeGRPCWebProto) ∧
    "grpc-status, grpc-message" ∈
      ((lookupH (writeHeaders s).1.transport "Access-Control-Expose-Headers").getD []) := by
  unfold writeHeaders
  rw [hw]
  simp only [Bool.false_eq_true, if_false]
  refine ⟨?_, ?_, ?_⟩
  · trivial
  · show getH (addH _ "Access-Control-Expose-Headers" _) "Content-Type" = _
    unfold getH addH
    rw [lookupH_setVals_other _ _ _ _ (by decide)]
    rw [show lookupH (setH _ "Content-Type" _) "Content-Type" = _ from
      lookupH_setVals_self _ _ _]
  · show "grpc-status, grpc-message" ∈
      ((lookupH (addH _ "Access-Control-Expose-Headers" "grpc-status, grpc-message")
        "Access-Control-Expose-Headers").getD [])
    unfold addH
    rw [lookupH_setVals_self]
    simp

/-- Witness for C7 in binary mode with captured status 404. -/
theorem c7_header_finalization_witness :
    (writeHeaders ⟨[], [], 404, false, false, []⟩).2 = some 200 ∧
    getH (writeHeaders ⟨[], [], 404, false, false, []⟩).1.transport "Content-Type" =
      (if false then ContentTypeGRPCWebTextProto else ContentTypeGRPCWebProto) ∧
    "grpc-status, grpc-message" ∈
      ((lookupH (writeHeaders ⟨[], [], 404, false, false, []⟩).1.transport
        "Access-Control-Expose-Headers").getD []) :=
  c7_header_finalization ⟨[], [], 404, false, false, []⟩ rfl

/-- promoteKey preserves the invariant: the tracked entry is either still in
the headers, or already moved to the trailers. -/
theorem promoteKey_pres (p : Header × Header) (key ck : String) (v : List String)
    (hQ : lookupH p.1 ck = some v ∨ (lookupH p.1 ck = none ∧ lookupH p.2 ck = some v)) :
    lookupH (promoteKey p key).1 ck = some v ∨
      (lookupH (promoteKey p key).1 ck = none ∧ lookupH (promoteKey p key).2 ck = some v) := by
  unfold promoteKey
  cases hl : lookupH p.1 (canonKey (trimSpaceStr key)) with
  | none => exact hQ
  | some w =>
    by_cases he : canonKey (trimSpaceStr key) = ck
    · subst he
      rcases hQ with h | ⟨h1, h2⟩
      · right
        refine ⟨lookupH_delH_self p.1 _, ?_⟩
        rw [lookupH_setVals_self]
        rw [Option.some.inj (hl.symm.trans h)]
      · rw [h1] at hl
        exact absurd hl (by simp)
    · rcases hQ with h | ⟨h1, h2⟩
      · left
        rw [lookupH_delH_other p.1 _ ck (Ne.symm he)]
        exact h
      · right
        refine ⟨?_, ?_⟩
        · rw [lookupH_delH_other p.1 _ ck (Ne.symm he)]
          exact h1
        · rw [lookupH_setVals_other p.2 _ ck w (Ne.symm he)]
          exact h2

/-- promoteKey on the announced name itself moves the entry into the trailers. -/
theorem promoteKey_hits (p : Header × Header) (key ck : String) (v : List String)
    (hck : canonKey (trimSpaceStr key) = ck)
    (hQ : lookupH p.1 ck = some v ∨ (lookupH p.1 ck = none ∧ lookupH p.2 ck = some v)) :
    lookupH (promoteKey p key).1 ck = none ∧ lookupH (promoteKey p key).2 ck = some v := by
  unfold promoteKey
  rw [hck]
  rcases hQ with h | ⟨h1, h2⟩
  · rw [h]
    exact ⟨lookupH_delH_self p.1 ck, by rw [lookupH_setVals_self]⟩
  · rw [h1]
    exact ⟨h1, h2⟩

/-- Once the entry is moved, promoteKey keeps it moved. -/
theorem promoteKey_presR (p : Header × Header) (key ck : String) (v : List String)
    (hR : lookupH p.1 ck = none ∧ lookupH p.2 ck = some v) :
    lookupH (promoteKey p key).1 ck = none ∧ lookupH (promoteKey p key).2 ck = some v := by
  unfold promoteKey
  cases hl : lookupH p.1 (canonKey (trimSpaceStr key)) with
  | none => exact hR
  | some w =>
    have hne : canonKey (trimSpaceStr key) ≠ ck := by
      intro he
      rw [he, hR.1] at hl
      exact absurd hl (by simp)
    refine ⟨?_, ?_⟩
    · rw [lookupH_delH_other p.1 _ ck (Ne.symm hne)]
      exact hR.1
    · rw [lookupH_setVals_other p.2 _ ck w (Ne.symm hne)]
      exact hR.2

/-- A moved entry stays moved through any further promotion steps. -/
theorem foldl_promote_presR : ∀ (keys : List String) (p : Header × Header)
    (ck : String) (v : List String),
    lookupH p.1 ck = none ∧ lookupH p.2 ck = some v →
    lookupH (keys.foldl promoteKey p).1 ck = none ∧
      lookupH (keys.foldl promoteKey p).2 ck = some v := by
  intro keys
  induction keys with
  | nil => intro p ck v hR; exact hR
  | cons key t ih =>
    intro p ck v hR
    exact ih (promoteKey p key) ck v (promoteKey_presR p key ck v hR)

/-- If some announced name in the list canonicalizes to ck and the entry is
available, the promotion fold leaves the entry in the trailers and out of the
headers. -/
theorem foldl_promote_hits : ∀ (keys : List String) (p : Header × Header)
    (ck : String) (v : List String),
    (lookupH p.1 ck = some v ∨ (lookupH p.1 ck = none ∧ lookupH p.2 ck = some v)) →
    (∃ key ∈ keys, canonKey (trimSpaceStr key) = ck) →
    lookupH (keys.foldl promoteKey p).1 ck = none ∧
      lookupH (keys.foldl promoteKey p).2 ck = some v := by
  intro keys
  induction keys with
  | nil =>
    intro p ck v hQ hex
    simp at hex
  | cons key t ih =>
    intro p ck v hQ hex
    rcases hex with ⟨key', hk', hck⟩
    rcases List.mem_cons.mp hk' with h | hmem
    · subst h
      exact foldl_promote_presR t (promoteKey p key') ck v
        (promoteKey_hits p key' ck v hck hQ)
    · exact ih (promoteKey p key) ck v (promoteKey_pres p key ck v hQ) ⟨key', hmem, hck⟩

/-- The full promotion pass moves every announced header entry into trailers. -/
theorem promoteAll_moves (headers trailers : Header) (tvs : List String) (key : String)
    (v : List String)
    (ht : lookupH headers "Trailer" = some tvs)
    (hkey : ∃ tv ∈ tvs, key ∈ splitCommaStr tv)
    (hval : lookupH headers (canonKey (trimSpaceStr key)) = some v) :
    lookupH (promoteAll headers trailers).1 (canonKey (trimSpaceStr key)) = none ∧
    lookupH (promoteAll headers trailers).2 (canonKey (trimSpaceStr key)) = some v := by
  unfold promoteAll
  rw [ht]
  simp only []
  have hflat : tvs.foldl (fun p tv => (splitCommaStr tv).foldl promoteKey p)
        (headers, trailers)
      = ((tvs.map splitCommaStr).flatten).foldl promoteKey (headers, trailers) := by
    rw [List.foldl_flatten, List.foldl_map]
  rw [hflat]
  apply foldl_promote_hits
  · left
    exact hval
  · rcases hkey with ⟨tv, htv, hkeytv⟩
    exact ⟨key, List.mem_flatten.mpr ⟨splitCommaStr tv, List.mem_map_of_mem _ htv, hkeytv⟩, rfl⟩

/-- Cons unfolding of copyHeaders. -/
theorem copyHeaders_cons (e : String × List String) (tl : Header) (t : Header) :
    copyHeaders (e :: tl) t = copyHeaders tl
      (if e.1 ≠ "Content-Type" ∧ e.1 ≠ "Content-Length" then setVals t e.1 e.2 else t) := rfl

/-- copyHeaders introduces no entry for a key absent from both inputs. -/
theorem lookupH_copyHeaders_none : ∀ (hs t : Header) (k : String),
    lookupH hs k = none → lookupH t k = none → lookupH (copyHeaders hs t) k = none := by
  intro hs
  induction hs with
  | nil =>
    intro t k _ ht
    exact ht
  | cons e tl ih =>
    intro t k hk ht
    rw [lookupH_cons] at hk
    by_cases he : e.1 == k
    · rw [if_pos he] at hk
      exact absurd hk (by simp)
    · rw [if_neg he] at hk
      have hne : k ≠ e.1 := by
        simp only [beq_iff_eq] at he
        exact fun hkk => he hkk.symm
      rw [copyHeaders_cons]
      apply ih _ k hk
      by_cases hct : e.1 ≠ "Content-Type" ∧ e.1 ≠ "Content-Length"
      · rw [if_pos hct, lookupH_setVals_other t e.1 k e.2 hne]
        exact ht
      · rw [if_neg hct]
        exact ht

/-- C8: a header entry whose (canonicalized, trimmed) name appears in one of
the comma-separated Trailer announcement values is moved by header
finalization: afterwards the trailer set holds the entry, the buffered header
set no longer announces Trailer, and the transport header set contains neither
the promoted field nor Trailer. -/
theorem c8_trailer_promotion (s : SRWState) (tvs : List String) (key : String)
    (v : List String)
    (hw : s.headersWritten = false)
    (ht : lookupH s.headers "Trailer" = some tvs)
    (hkey : ∃ tv ∈ tvs, key ∈ splitCommaStr tv)
    (hval : lookupH s.headers (canonKey (trimSpaceStr key)) = some v)
    (hne1 : canonKey (trimSpaceStr key) ≠ "Trailer")
    (hne2 : canonKey (trimSpaceStr key) ≠ "Content-Type")
    (hne3 : canonKey (trimSpaceStr key) ≠ "Access-Control-Expose-Headers")
    (htr1 : lookupH s.transport (canonKey (trimSpaceStr key)) = none)
    (htr2 : lookupH s.transport "Trailer" = none) :
    lookupH (writeHeaders s).1.trailers (canonKey (trimSpaceStr key)) = some v ∧
    lookupH (writeHeaders s).1.headers "Trailer" = none ∧
    lookupH (writeHeaders s).1.transport (canonKey (trimSpaceStr key)) = none ∧
    lookupH (writeHeaders s).1.transport "Trailer" = none := by
  have hmoves := promoteAll_moves s.headers s.trailers tvs key v ht hkey hval
  have hcopy : lookupH (copyHeaders (delH (promoteAll s.headers s.trailers).1 "Trailer")
      s.transport) (canonKey (trimSpaceStr key)) = none := by
    apply lookupH_copyHeaders_none _ s.transport _ ?_ htr1
    rw [lookupH_delH_other _ "Trailer" _ hne1]
    exact hmoves.1
  have hcopy2 : lookupH (copyHeaders (delH (promoteAll s.headers s.trailers).1 "Trailer")
      s.transport) "Trailer" = none :=
    lookupH_copyHeaders_none _ s.transport _ (lookupH_delH_self _ "Trailer") htr2
  unfold writeHeaders
  rw [hw]
  simp only [Bool.false_eq_true, if_false]
  refine ⟨hmoves.2, lookupH_delH_self _ "Trailer", ?_, ?_⟩
  · unfold addH
    rw [lookupH_setVals_other _ _ _ _ hne3]
    unfold setH
    rw [lookupH_setVals_other _ _ _ _ hne2]
    exact hcopy
  · unfold addH
    rw [lookupH_setVals_other _ _ _ _
      (by decide : ("Trailer" : String) ≠ "Access-Control-Expose-Headers")]
    unfold setH
    rw [lookupH_setVals_other _ _ _ _ (by decide : ("Trailer" : String) ≠ "Content-Type")]
    exact hcopy2

/-- Witness for C8 at the concrete header set
Trailer: "X-Foo" plus X-Foo: "bar" with an empty transport header map. -/
theorem c8_trailer_promotion_witness :
    lookupH (writeHeaders ⟨[("Trailer", ["X-Foo"]), ("X-Foo", ["bar"])],
        [], 200, false, false, []⟩).1.trailers (canonKey (trimSpaceStr "X-Foo")) = some ["bar"] ∧
    lookupH (writeHeaders ⟨[("Trailer", ["X-Foo"]), ("X-Foo", ["bar"])],
        [], 200, false, false, []⟩).1.headers "Trailer" = none ∧
    lookupH (writeHeaders ⟨[("Trailer", ["X-Foo"]), ("X-Foo", ["bar"])],
        [], 200, false, false, []⟩).1.transport (canonKey (trimSpaceStr "X-Foo")) = none ∧
    lookupH (writeHeaders ⟨[("Trailer", ["X-Foo"]), ("X-Foo", ["bar"])],
        [], 200, false, false, []⟩).1.transport "Trailer" = none :=
  c8_trailer_promotion ⟨[("Trailer", ["X-Foo"]), ("X-Foo", ["bar"])], [], 200, false, false, []⟩
    ["X-Foo"] "X-Foo" ["bar"] rfl (by decide) ⟨"X-Foo", by decide, by decide⟩
    (by decide) (by decide) (by decide) (by decide) (by decide) (by decide)

/-- The standard base64 alphabet (base64.StdEncoding), in index order. -/
def b64Chars : List Char :=
  "ABCDEFGHIJKLMNOPQRSTUVWXYZabcdefghijklmnopqrstuvwxyz0123456789+/".data

/-- The alphabet character for a 6-bit value. -/
def b64Char (v : Nat) : Char := b64Chars.getD v 'A'

/-- Index search in the alphabet. -/
def b64ValueAux : List Char → Nat → Char → Option Nat
  | [], _, _ => none
  | x :: xs, i, c => if x = c then some i else b64ValueAux xs (i + 1) c

/-- The 6-bit value of an alphabet character, none for anything else. -/
def b64Value (c : Char) : Option Nat := b64ValueAux b64Chars 0 c

/-- Base64 encoding of one complete 3-byte group into 4 characters. -/
def b64Group (a b c : Nat) : List Char :=
  [b64Char (a % 256 / 4), b64Char (a % 256 % 4 * 16 + b % 256 / 16),
   b64Char (b % 256 % 16 * 4 + c % 256 / 64), b64Char (c % 256 % 64)]

/-- Standard base64 encoding with padding (base64.StdEncoding, no line breaks). -/
def base64Encode : List Nat → List Char
  | [] => []
  | [a] => [b64Char (a % 256 / 4), b64Char (a % 256 % 4 * 16), '=', '=']
  | [a, b] => [b64Char (a % 256 / 4), b64Char (a % 256 % 4 * 16 + b % 256 / 16),
      b64Char (b % 256 % 16 * 4), '=']
  | a :: b :: c :: rest => b64Group a b c ++ base64Encode rest

/-- Decoding one full 4-character group into 3 bytes. -/
def b64DecodeGroup (w x y z : Char) : Option (List Nat) :=
  match b64Value w, b64Value x, b64Value y, b64Value z with
  | some a, some b, some c, some d =>
    some [a * 4 + b / 16, b % 16 * 16 + c / 4, c % 4 * 64 + d]
  | _, _, _, _ => none

/-- Standard base64 decoding: the length must be a multiple of 4, padding may
only appear in the final quantum, and any non-alphabet character fails. -/
def base64Decode : List Char → Option (List Nat)
  | [] => some []
  | w :: x :: y :: z :: rest =>
    if rest.isEmpty ∧ y = '=' ∧ z = '=' then
      match b64Value w, b64Value x with
      | some a, some b => some [a * 4 + b / 16]
      | _, _ => none
    else if rest.isEmpty ∧ z = '=' then
      match b64Value w, b64Value x, b64Value y with
      | some a, some b, some c => some [a * 4 + b / 16, b % 16 * 16 + c / 4]
      | _, _, _ => none
    else
      match b64DecodeGroup w x y z, base64Decode rest with
      | some g, some gs => some (g ++ gs)
      | _, _ => none
  | _ => none

/-- Decoding an alphabet character recovers its value. -/
theorem b64Value_b64Char (v : Nat) (h : v < 64) : b64Value (b64Char v) = some v := by
  have hall : ∀ u : Fin 64, b64Value (b64Char u.val) = some u.val := by decide
  exact hall ⟨v, h⟩

/-- Alphabet characters are never the padding character. -/
theorem b64Char_ne_pad (v : Nat) (h : v < 64) : b64Char v ≠ '=' := by
  have hall : ∀ u : Fin 64, b64Char u.val ≠ '=' := by decide
  exact hall ⟨v, h⟩

/-- Decoding inverts encoding on byte lists (every element below 256). -/
theorem base64_roundtrip : ∀ (m : Nat) (B : List Nat), B.length ≤ m →
    (∀ b ∈ B, b < 256) → base64Decode (base64Encode B) = some B := by
  intro m
  induction m with
  | zero =>
    intro B hlen _
    have hB : B = [] := List.length_eq_zero.mp (Nat.le_zero.mp hlen)
    subst hB
    rfl
  | succ m ih =>
    intro B hlen hb
    rcases B with _ | ⟨a, _ | ⟨b, _ | ⟨c, rest⟩⟩⟩
    · rfl
    · have ha : a < 256 := hb a (by simp)
      show base64Decode [b64Char (a % 256 / 4), b64Char (a % 256 % 4 * 16), '=', '='] =
        some [a]
      unfold base64Decode
      rw [if_pos ⟨rfl, rfl, rfl⟩]
      rw [b64Value_b64Char _ (by omega), b64Value_b64Char _ (by omega)]
      simp only []
      have harith : a % 256 / 4 * 4 + a % 256 % 4 * 16 / 16 = a := by omega
      rw [harith]
    · have ha : a < 256 := hb a (by simp)
      have hbb : b < 256 := hb b (by simp)
      show base64Decode [b64Char (a % 256 / 4), b64Char (a % 256 % 4 * 16 + b % 256 / 16),
          b64Char (b % 256 % 16 * 4), '='] = some [a, b]
      unfold base64Decode
      rw [if_neg ?hpad1, if_pos ⟨rfl, rfl⟩]
      case hpad1 =>
        intro hcon
        exact absurd hcon.2.1 (b64Char_ne_pad _ (by omega))
      rw [b64Value_b64Char _ (by omega), b64Value_b64Char _ (by omega),
        b64Value_b64Char _ (by omega)]
      simp only []
      have h1 : a % 256 / 4 * 4 + (a % 256 % 4 * 16 + b % 256 / 16) / 16 = a := by omega
      have h2 : (a % 256 % 4 * 16 + b % 256 / 16) % 16 * 16 + b % 256 % 16 * 4 / 4 = b := by
        omega
      rw [h1, h2]
    · have ha : a < 256 := hb a (by simp)
      have hbb : b < 256 := hb b (by simp)
      have hc : c < 256 := hb c (by simp)
      show base64Decode (b64Char (a % 256 / 4) :: b64Char (a % 256 % 4 * 16 + b % 256 / 16)
          :: b64Char (b % 256 % 16 * 4 + c % 256 / 64) :: b64Char (c % 256 % 64)
          :: base64Encode rest) = some (a :: b :: c :: rest)
      unfold base64Decode
      rw [if_neg ?hpad2, if_neg ?hpad3]
      case hpad2 =>
        intro hcon
        exact absurd hcon.2.1 (b64Char_ne_pad _ (by omega))
      case hpad3 =>
        intro hcon
        exact absurd hcon.2 (b64Char_ne_pad _ (by omega))
      have hrec : base64Decode (base64Encode rest) = some rest := by
        apply ih rest ?_ (fun x hx => hb x (by simp [hx]))
        simp only [List.length_cons] at hlen
        omega
      rw [hrec]
      unfold b64DecodeGroup
      rw [b64Value_b64Char _ (by omega), b64Value_b64Char _ (by omega),
        b64Value_b64Char _ (by omega), b64Value_b64Char _ (by omega)]
      simp only []
      have h1 : a % 256 / 4 * 4 + (a % 256 % 4 * 16 + b % 256 / 16) / 16 = a := by omega
      have h2 : (a % 256 % 4 * 16 + b % 256 / 16) % 16 * 16
          + (b % 256 % 16 * 4 + c % 256 / 64) / 4 = b := by omega
      have h3 : (b % 256 % 16 * 4 + c % 256 / 64) % 4 * 64 + c % 256 % 64 = c := by omega
      rw [h1, h2, h3]
      rfl

/-- Encode all complete 3-byte groups, returning the emitted characters and the
0-2 residual bytes (the bytes Go's streaming base64 encoder keeps buffered). -/
def encodeGroups : List Nat → List Char × List Nat
  | a :: b :: c :: rest => (b64Group a b c ++ (encodeGroups rest).1, (encodeGroups rest).2)
  | rest => ([], rest)

/-- State of the streaming base64 encoder inside flushingBase64Writer: the
characters already emitted to the underlying writer and the buffered residual
bytes. -/
structure B64State where
  out : List Char
  rem : List Nat

/-- One Write call on the base64 encoder (flushingBase64Writer.Write,
grpcweb.go lines 300-302): encode all complete groups of residual plus input,
keep the new residual. -/
def b64Write (st : B64State) (p : List Nat) : B64State :=
  ⟨st.out ++ (encodeGroups (st.rem ++ p)).1, (encodeGroups (st.rem ++ p)).2⟩

/-- Closing the encoder (flushingBase64Writer.Close, grpcweb.go lines 310-312):
emit the final partial group with padding.  Returns the total emitted stream. -/
def b64Close (st : B64State) : List Char := st.out ++ base64Encode st.rem

/-- Group-wise encoding of a prefix composes with full encoding of the rest. -/
theorem encodeGroups_append : ∀ (m : Nat) (xs q : List Nat), xs.length ≤ m →
    base64Encode (xs ++ q) =
      (encodeGroups xs).1 ++ base64Encode ((encodeGroups xs).2 ++ q) := by
  intro m
  induction m with
  | zero =>
    intro xs q hlen
    have hx : xs = [] := List.length_eq_zero.mp (Nat.le_zero.mp hlen)
    subst hx
    rfl
  | succ m ih =>
    intro xs q hlen
    rcases xs with _ | ⟨a, _ | ⟨b, _ | ⟨c, rest⟩⟩⟩
    · rfl
    · rfl
    · rfl
    · show b64Group a b c ++ base64Encode (rest ++ q) =
        (b64Group a b c ++ (encodeGroups rest).1) ++
          base64Encode ((encodeGroups rest).2 ++ q)
      rw [ih rest q (by simp only [List.length_cons] at hlen; omega), List.append_assoc]

/-- Folding the streaming encoder over any chunk sequence and closing yields
exactly the batch base64 encoding of the concatenated bytes. -/
theorem b64_stream : ∀ (cs : List (List Nat)) (st : B64State),
    b64Close (cs.foldl b64Write st) = st.out ++ base64Encode (st.rem ++ cs.flatten) := by
  intro cs
  induction cs with
  | nil =>
    intro st
    show st.out ++ base64Encode st.rem = st.out ++ base64Encode (st.rem ++ [])
    rw [List.append_nil]
  | cons c cs' ih =>
    intro st
    show b64Close (cs'.foldl b64Write (b64Write st c)) = _
    rw [ih (b64Write st c)]
    show st.out ++ (encodeGroups (st.rem ++ c)).1 ++
        base64Encode ((encodeGroups (st.rem ++ c)).2 ++ cs'.flatten) =
      st.out ++ base64Encode (st.rem ++ (c :: cs').flatten)
    rw [List.append_assoc]
    congr 1
    rw [← encodeGroups_append (st.rem ++ c).length (st.rem ++ c) cs'.flatten (le_refl _)]
    rw [List.flatten_cons, ← List.append_assoc]

/-- UTF-8 encoding of one character, as byte values. -/
def utf8Bytes (c : Char) : List Nat :=
  if c.toNat < 128 then [c.toNat]
  else if c.toNat < 2048 then [192 + c.toNat / 64, 128 + c.toNat % 64]
  else if c.toNat < 65536 then
    [224 + c.toNat / 4096, 128 + c.toNat / 64 % 64, 128 + c.toNat % 64]
  else
    [240 + c.toNat / 262144, 128 + c.toNat / 4096 % 64, 128 + c.toNat / 64 % 64,
      128 + c.toNat % 64]

/-- ASCII white space trimmed by textproto.TrimString. -/
def isHTTPSpace (c : Char) : Bool :=
  c = ' ' || c = '\t' || c = '\n' || c = '\r'

/-- The value transformation of http.Header.Write: replace CR and LF with
spaces, then trim surrounding ASCII white space. -/
def sanitizeValue (v : String) : List Char :=
  let r := v.data.map (fun c => if c = '\r' || c = '\n' then ' ' else c)
  ((r.dropWhile isHTTPSpace).reverse.dropWhile isHTTPSpace).reverse

/-- Byte-wise lexicographic order on keys, as used when http.Header.Write sorts
the header keys. -/
def charListLE : List Char → List Char → Bool
  | [], _ => true
  | _ :: _, [] => false
  | a :: as, b :: bs =>
    if a.toNat < b.toNat then true
    else if b.toNat < a.toNat then false
    else charListLE as bs

/-- Insertion into a key-sorted header list. -/
def insertSorted (e : String × List String) : Header → Header
  | [] => [e]
  | x :: xs => if charListLE e.1.data x.1.data then e :: x :: xs else x :: insertSorted e xs

/-- The header entries in ascending key order (http.Header.sortedKeyValues). -/
def sortByKey (h : Header) : Header := h.foldr insertSorted []

/-- httpguts.ValidHeaderFieldName: nonempty and all token characters. -/
def isValidFieldName (k : String) : Bool :=
  !(k.data.isEmpty) && k.data.all isTokenChar

/-- The "Key: value\r\n" lines for one entry, one line per value. -/
def headerEntryChars (k : String) (vs : List String) : List Char :=
  vs.foldl (fun acc v => acc ++ k.data ++ [':', ' '] ++ sanitizeValue v ++ ['\r', '\n']) []

/-- http.Header.Write: the standard header-block text serialization, keys
sorted, invalid field names skipped. -/
def headerBlockChars (h : Header) : List Char :=
  (sortByKey h).foldl (fun acc e =>
    if isValidFieldName e.1 then acc ++ headerEntryChars e.1 e.2 else acc) []

/-- The serialized trailer payload written by Finish (grpcweb.go lines
184-199): synthesize the trailer defaults, serialize the trailer set, and take
the UTF-8 bytes. -/
def trailerPayload (trailers : Header) (captured : Nat) : List Nat :=
  (headerBlockChars (finishTrailers trailers captured)).flatMap utf8Bytes

/-- The 5-byte web TRAILER frame header written by Finish (grpcweb.go lines
197-199): flag 0x80 plus the big-endian payload length. -/
def trailerFrameHeader (trailers : Header) (captured : Nat) : List Nat :=
  grpcTrailerFrame :: be32encode (trailerPayload trailers captured).length

/-- A sequence of Write calls collecting, per call, the bytes handed to the
body writer; none as soon as one call fails. -/
def writeOuts (buf : List Nat) : List (List Nat) → Option (List Nat × List (List Nat))
  | [] => some (buf, [])
  | p :: ps =>
    match drainLoop (buf ++ p) with
    | some ro => (writeOuts ro.1 ps).map (fun r => (r.1, ro.2 :: r.2))
    | none => none

/-- The chunk sequence handed to the body writer by a full exchange: the drain
output of each Write call, then the trailer frame header and payload written
by Finish. -/
def srwBodyChunks (ps : List (List Nat)) (trailers : Header) (captured : Nat) :
    Option (List (List Nat)) :=
  (writeOuts [] ps).map (fun r =>
    r.2 ++ [trailerFrameHeader trailers captured, trailerPayload trailers captured])

/-- The byte stream reaching the wire in binary mode: the body-writer chunks
concatenated (bodyWriter is the ResponseWriter itself). -/
def srwBinaryMode (ps : List (List Nat)) (trailers : Header) (captured : Nat) :
    Option (List Nat) :=
  (srwBodyChunks ps trailers captured).map List.flatten

/-- The character stream reaching the wire in text mode: the same chunks pushed
through the streaming base64 encoder, which Finish closes at the end. -/
def srwTextMode (ps : List (List Nat)) (trailers : Header) (captured : Nat) :
    Option (List Char) :=
  (srwBodyChunks ps trailers captured).map
    (fun cs => b64Close (cs.foldl b64Write ⟨[], []⟩))

/-- The four bytes of be32encode are bytes. -/
theorem be32encode_lt (n : Nat) : ∀ x ∈ be32encode n, x < 256 := by
  intro x hx
  simp only [be32encode, List.mem_cons, List.not_mem_nil, or_false] at hx
  rcases hx with rfl | rfl | rfl | rfl <;> omega

/-- Every character code point is below 0x110000. -/
theorem char_toNat_lt (c : Char) : c.toNat < 1114112 := by
  rcases c.valid with h | ⟨h1, h2⟩
  · exact lt_trans h (by norm_num)
  · exact h2

/-- UTF-8 encodings consist of bytes. -/
theorem utf8Bytes_lt (c : Char) : ∀ x ∈ utf8Bytes c, x < 256 := by
  have hc := char_toNat_lt c
  intro x hx
  unfold utf8Bytes at hx
  by_cases h1 : c.toNat < 128
  · rw [if_pos h1] at hx
    simp only [List.mem_cons, List.not_mem_nil, or_false] at hx
    omega
  · rw [if_neg h1] at hx
    by_cases h2 : c.toNat < 2048
    · rw [if_pos h2] at hx
      simp only [List.mem_cons, List.not_mem_nil, or_false] at hx
      rcases hx with rfl | rfl <;> omega
    · rw [if_neg h2] at hx
      by_cases h3 : c.toNat < 65536
      · rw [if_pos h3] at hx
        simp only [List.mem_cons, List.not_mem_nil, or_false] at hx
        rcases hx with rfl | rfl | rfl <;> omega
      · rw [if_neg h3] at hx
        simp only [List.mem_cons, List.not_mem_nil, or_false] at hx
        rcases hx with rfl | rfl | rfl | rfl <;> omega

/-- The serialized trailer payload consists of bytes. -/
theorem trailerPayload_lt (t : Header) (cap : Nat) :
    ∀ x ∈ trailerPayload t cap, x < 256 := by
  intro x hx
  unfold trailerPayload at hx
  rw [List.mem_flatMap] at hx
  obtain ⟨ch, _, hch⟩ := hx
  exact utf8Bytes_lt ch x hch

/-- A successful drain emits only bytes and retains only bytes, when fed bytes. -/
theorem drain_bytes : ∀ (m : Nat) (buf rem out : List Nat), buf.length ≤ m →
    (∀ x ∈ buf, x < 256) → drainLoop buf = some (rem, out) →
    (∀ x ∈ out, x < 256) ∧ (∀ x ∈ rem, x < 256) := by
  intro m
  induction m with
  | zero =>
    intro buf rem out hlen hb hd
    have hbuf : buf = [] := List.length_eq_zero.mp (Nat.le_zero.mp hlen)
    subst hbuf
    rw [drainLoop_short [] (by simp)] at hd
    simp only [Option.some.injEq, Prod.mk.injEq] at hd
    obtain ⟨h1, h2⟩ := hd
    subst h1
    subst h2
    exact ⟨by simp, by simp⟩
  | succ m ih =>
    intro buf rem out hlen hb hd
    by_cases h5 : buf.length < 5
    · rw [drainLoop_short buf h5] at hd
      simp only [Option.some.injEq, Prod.mk.injEq] at hd
      obtain ⟨h1, h2⟩ := hd
      subst h1
      subst h2
      exact ⟨by simp, hb⟩
    · obtain ⟨f, a, b, c, d, rest, rfl⟩ := exists_cons5 buf h5
      rw [drainLoop_cons] at hd
      by_cases hg : u32 (5 + rest.length) < u32 (5 + be32 a b c d)
      · rw [if_pos hg] at hd
        simp only [Option.some.injEq, Prod.mk.injEq] at hd
        obtain ⟨h1, h2⟩ := hd
        subst h1
        subst h2
        exact ⟨by simp, hb⟩
      · rw [if_neg hg] at hd
        by_cases hC : be32 a b c d ≤ rest.length
        · rw [if_pos hC] at hd
          cases hdrop : drainLoop (rest.drop (be32 a b c d)) with
          | none => rw [hdrop] at hd; simp at hd
          | some ro =>
            rw [hdrop] at hd
            simp only [Option.map_some', Option.some.injEq, Prod.mk.injEq] at hd
            obtain ⟨h1, h2⟩ := hd
            subst h1
            have hrest : ∀ x ∈ rest, x < 256 := fun x hx => hb x (by simp [hx])
            have hrec := ih (rest.drop (be32 a b c d)) ro.1 ro.2
              (by rw [List.length_drop]; simp only [List.length_cons] at hlen; omega)
              (fun x hx => hrest x (List.mem_of_mem_drop hx)) hdrop
            refine ⟨?_, hrec.2⟩
            intro x hx
            rw [← h2] at hx
            rcases List.mem_append.mp hx with hx1 | hx2
            · unfold webDataFrame at hx1
              rcases List.mem_cons.mp hx1 with h0 | h1
              · rw [h0]
                norm_num [grpcDataFrame]
              · rcases List.mem_append.mp h1 with hx3 | hx4
                · exact be32encode_lt _ x hx3
                · exact hrest x (List.mem_of_mem_take hx4)
            · exact hrec.1 x hx2
        · rw [if_neg hC] at hd
          simp at hd

/-- writeOuts emits only bytes when buffer and inputs are bytes. -/
theorem writeOuts_bytes : ∀ (ps : List (List Nat)) (buf rem : List Nat)
    (outs : List (List Nat)), (∀ x ∈ buf, x < 256) → (∀ p ∈ ps, ∀ x ∈ p, x < 256) →
    writeOuts buf ps = some (rem, outs) → ∀ c ∈ outs, ∀ x ∈ c, x < 256 := by
  intro ps
  induction ps with
  | nil =>
    intro buf rem outs _ _ hw c hc
    simp only [writeOuts, Option.some.injEq, Prod.mk.injEq] at hw
    rw [← hw.2] at hc
    simp at hc
  | cons p ps' ih =>
    intro buf rem outs hbuf hp hw c hc
    unfold writeOuts at hw
    cases hd : drainLoop (buf ++ p) with
    | none => rw [hd] at hw; simp at hw
    | some ro =>
      rw [hd] at hw
      simp only [] at hw
      cases hrec : writeOuts ro.1 ps' with
      | none => rw [hrec] at hw; simp at hw
      | some r =>
        rw [hrec] at hw
        simp only [Option.map_some', Option.some.injEq, Prod.mk.injEq] at hw
        have hin : ∀ x ∈ buf ++ p, x < 256 := by
          intro x hx
          rcases List.mem_append.mp hx with h | h
          · exact hbuf x h
          · exact hp p (by simp) x h
        have hdb := drain_bytes (buf ++ p).length (buf ++ p) ro.1 ro.2 (le_refl _) hin hd
        rw [← hw.2] at hc
        rcases List.mem_cons.mp hc with rfl | hc2
        · exact hdb.1
        · exact ih ro.1 r.1 r.2 hdb.2 (fun q hq => hp q (by simp [hq])) hrec c hc2

/-- All bytes of the full body-writer chunk sequence are bytes. -/
theorem srwChunks_bytes (ps : List (List Nat)) (trailers : Header) (captured : Nat)
    (cs : List (List Nat)) (hp : ∀ p ∈ ps, ∀ x ∈ p, x < 256)
    (h : srwBodyChunks ps trailers captured = some cs) : ∀ x ∈ cs.flatten, x < 256 := by
  unfold srwBodyChunks at h
  cases hw : writeOuts [] ps with
  | none => rw [hw] at h; simp at h
  | some r =>
    rw [hw] at h
    simp only [Option.map_some', Option.some.injEq] at h
    subst h
    intro x hx
    rw [List.mem_flatten] at hx
    obtain ⟨c, hc, hxc⟩ := hx
    rcases List.mem_append.mp hc with hc1 | hc2
    · exact writeOuts_bytes ps [] r.1 r.2 (by simp) hp hw c hc1 x hxc
    · simp only [List.mem_cons, List.not_mem_nil, or_false] at hc2
      rcases hc2 with rfl | rfl
      · simp only [trailerFrameHeader, List.mem_cons] at hxc
        rcases hxc with rfl | hxe
        · norm_num [grpcTrailerFrame]
        · exact be32encode_lt _ x hxe
      · exact trailerPayload_lt trailers captured x hxc

/-- C3: Text-mode invariant: for every sequence of Write calls (byte-valued
inputs) followed by Finish, the full stream emitted in text mode -- the same
body-writer chunks pushed through the streaming base64 encoder, closed at the
end of Finish -- is valid standard base64 (decoding succeeds) and decodes to
exactly the byte stream the same calls emit in binary mode. -/
theorem c3_text_mode_base64 (ps : List (List Nat)) (trailers : Header) (captured : Nat)
    (txt : List Char) (bin : List Nat)
    (hp : ∀ p ∈ ps, ∀ x ∈ p, x < 256)
    (htxt : srwTextMode ps trailers captured = some txt)
    (hbin : srwBinaryMode ps trailers captured = some bin) :
    base64Decode txt = some bin := by
  unfold srwTextMode at htxt
  unfold srwBinaryMode at hbin
  cases hc : srwBodyChunks ps trailers captured with
  | none =>
    rw [hc] at htxt
    simp at htxt
  | some cs =>
    rw [hc] at htxt hbin
    simp only [Option.map_some', Option.some.injEq] at htxt hbin
    subst htxt
    subst hbin
    rw [b64_stream cs ⟨[], []⟩]
    show base64Decode (base64Encode cs.flatten) = some cs.flatten
    exact base64_roundtrip cs.flatten.length cs.flatten (le_refl _)
      (srwChunks_bytes ps trailers captured cs hp hc)

/-- Witness for C3: one Write holding the complete native frame for payload
[65], empty trailers, captured status 200. -/
theorem c3_text_mode_base64_witness :
    base64Decode (b64Close (([[0, 0, 0, 0, 1, 65], trailerFrameHeader [] 200,
        trailerPayload [] 200] : List (List Nat)).foldl b64Write ⟨[], []⟩)) =
      some (List.flatten [[0, 0, 0, 0, 1, 65], trailerFrameHeader [] 200,
        trailerPayload [] 200]) := by
  have hd : drainLoop ([] ++ [0, 0, 0, 0, 1, 65]) = some ([], [0, 0, 0, 0, 1, 65]) := by
    rw [List.nil_append, drainLoop_cons]
    have hbe : be32 0 0 0 1 = 1 := by norm_num [be32]
    rw [hbe]
    rw [if_neg (by norm_num [u32]), if_pos (by norm_num)]
    have hdrop : ([65] : List Nat).drop 1 = [] := rfl
    have htake : ([65] : List Nat).take 1 = [65] := rfl
    rw [hdrop, htake, drainLoop_short [] (by norm_num)]
    simp [webDataFrame, be32encode, grpcDataFrame]
  have hw : writeOuts [] [[0, 0, 0, 0, 1, 65]] = some ([], [[0, 0, 0, 0, 1, 65]]) := by
    unfold writeOuts
    rw [hd]
    rfl
  have hc : srwBodyChunks [[0, 0, 0, 0, 1, 65]] [] 200 =
      some [[0, 0, 0, 0, 1, 65], trailerFrameHeader [] 200, trailerPayload [] 200] := by
    unfold srwBodyChunks
    rw [hw]
    rfl
  have htxt : srwTextMode [[0, 0, 0, 0, 1, 65]] [] 200 =
      some (b64Close (([[0, 0, 0, 0, 1, 65], trailerFrameHeader [] 200,
        trailerPayload [] 200] : List (List Nat)).foldl b64Write ⟨[], []⟩)) := by
    unfold srwTextMode
    rw [hc]
    rfl
  have hbin : srwBinaryMode [[0, 0, 0, 0, 1, 65]] [] 200 =
      some (List.flatten [[0, 0, 0, 0, 1, 65], trailerFrameHeader [] 200,
        trailerPayload [] 200]) := by
    unfold srwBinaryMode
    rw [hc]
    rfl
  exact c3_text_mode_base64 [[0, 0, 0, 0, 1, 65]] [] 200 _ _ (by decide) htxt hbin
